import Mathlib

/-!
Verification of the stereo feature point generation and matching engine of the
rslam repository (crate `proslam`): a shallow embedding of
`intensity_feature_matcher.rs`, `stereo_frame_point_generator.rs` and
`stereo_framepoint.rs`, together with theorems about the embedded operations.

Machine floats (`f32`/`f64`) are modelled by exact rationals `ℚ`; pixel
indices (`i32`/`usize`) by `ℤ`/`ℕ`; OpenCV `Mat` descriptor rows by bit
lists with Hamming distance; fallible operations return `Except`.
-/

namespace RSLAM

/-- Model of an OpenCV `KeyPoint`: only its sub-pixel location `pt()` is
read by this core (`pt().x`, `pt().y`). -/
structure Keypoint where
  x : ℚ
  y : ℚ
deriving DecidableEq

/-- Rust's `as i32` cast on a nonnegative-or-negative float truncates toward
zero: floor for nonnegative values, ceiling for negative ones. -/
def truncQ (q : ℚ) : ℤ :=
  if 0 ≤ q then ⌊q⌋ else ⌈q⌉

/-- A descriptor row of the OpenCV `Mat`, viewed as its bit sequence. -/
abbrev Descriptor := List Bool

/-- `opencv::core::norm2(a, b, NORM_HAMMING, ..)`: the number of positions
where the two descriptors differ. -/
def hammingNorm (a b : Descriptor) : ℕ :=
  ((a.zip b).filter (fun p => p.1 != p.2)).length

/-- `IntensityFeature` from `intensity_feature_matcher.rs`: keypoint,
descriptor, truncated pixel coordinates, and the index in the owning
flat feature vector. -/
structure IntensityFeature where
  keypoint : Keypoint
  descriptor : Descriptor
  row : ℤ
  col : ℤ
  index_in_vector : ℕ
deriving DecidableEq

instance : Inhabited IntensityFeature :=
  ⟨{ keypoint := ⟨0, 0⟩, descriptor := [], row := 0, col := 0, index_in_vector := 0 }⟩

/-- `IntensityFeature::new`: `row = keypoint.pt().y as i32`,
`col = keypoint.pt().x as i32`. -/
def IntensityFeature.new (kp : Keypoint) (d : Descriptor) (idx : ℕ) : IntensityFeature :=
  { keypoint := kp, descriptor := d, row := truncQ kp.y, col := truncQ kp.x,
    index_in_vector := idx }

/-- `IntensityFeatureMatcher`: the feature lattice (a row/col grid of optional
features) plus the flat feature vector. -/
structure IntensityFeatureMatcher where
  number_of_rows : ℤ
  number_of_cols : ℤ
  feature_lattice : List (List (Option IntensityFeature))
  feature_vector : List IntensityFeature
deriving DecidableEq

/-- `IntensityFeatureMatcher::configure` on a fresh (empty) matcher:
allocates a `rows × cols` grid of empty cells. -/
def IntensityFeatureMatcher.configure (rows cols : ℕ) : IntensityFeatureMatcher :=
  { number_of_rows := rows, number_of_cols := cols,
    feature_lattice := List.replicate rows (List.replicate cols none),
    feature_vector := [] }

/-- Write to lattice cell `(r, c)`; out-of-bounds writes do not change the
lattice (the source indexes `feature_lattice[row as usize][col as usize]`,
whose behaviour is only defined in bounds). -/
def set2 (lat : List (List (Option IntensityFeature))) (r c : ℤ)
    (v : Option IntensityFeature) : List (List (Option IntensityFeature)) :=
  if 0 ≤ r ∧ 0 ≤ c then
    lat.set r.toNat ((lat.getD r.toNat []).set c.toNat v)
  else lat

/-- Read lattice cell `(r, c)`; out-of-bounds reads give `none`. -/
def get2 (lat : List (List (Option IntensityFeature))) (r c : ℤ) : Option IntensityFeature :=
  if 0 ≤ r ∧ 0 ≤ c then (lat.getD r.toNat []).getD c.toNat none
  else none

/-- The features built by `set_fatures` from the keypoint/descriptor pairs,
in detection order (`keypoints.iter().enumerate()` zipped with the
descriptor rows of equal count). -/
def builtFeatures (keypoints : List Keypoint) (descriptors : List Descriptor) :
    List IntensityFeature :=
  ((keypoints.zip descriptors).enum).map (fun p => IntensityFeature.new p.2.1 p.2.2 p.1)

/-- `IntensityFeatureMatcher::set_fatures`: fails (without mutating) when the
keypoint and descriptor-row counts differ; otherwise clears every lattice
cell and the flat vector, then for each `(index, keypoint)` builds an
`IntensityFeature`, pushes it onto the flat vector and stores it at
`lattice[row][col]` (the clear loop runs over the full configured
`number_of_rows × number_of_cols` grid, which is exactly the allocated
shape). -/
def IntensityFeatureMatcher.set_fatures (m : IntensityFeatureMatcher)
    (keypoints : List Keypoint) (descriptors : List Descriptor) :
    IntensityFeatureMatcher × Except String Unit :=
  if keypoints.length ≠ descriptors.length then
    (m, Except.error "Number of keypoints and descriptors do not match")
  else
    let cleared : IntensityFeatureMatcher :=
      { m with
        feature_lattice := m.feature_lattice.map (fun rowL => rowL.map (fun _ => none)),
        feature_vector := [] }
    let final := ((keypoints.zip descriptors).enum).foldl
      (fun mm p =>
        let f := IntensityFeature.new p.2.1 p.2.2 p.1
        { mm with
          feature_vector := mm.feature_vector ++ [f],
          feature_lattice := set2 mm.feature_lattice f.row f.col (some f) })
      cleared
    (final, Except.ok ())

/-- The comparator of `sort_feature_vector`: order by `row`, ties by `col`. -/
def featureLE (a b : IntensityFeature) : Bool :=
  if a.row = b.row then a.col ≤ b.col else a.row < b.row

/-- `IntensityFeatureMatcher::sort_feature_vector`: stable sort of the flat
vector by `(row, col)` ascending. -/
def IntensityFeatureMatcher.sort_feature_vector (m : IntensityFeatureMatcher) :
    IntensityFeatureMatcher :=
  { m with feature_vector := m.feature_vector.mergeSort featureLE }

/-- The compaction loop of `IntensityFeatureMatcher::prune`: walk the vector
by pre-prune index, keeping exactly the entries whose index is not matched
(order preserved). -/
def pruneAux (matched : List ℕ) : ℕ → List IntensityFeature → List IntensityFeature
  | _, [] => []
  | i, f :: rest =>
    if i ∈ matched then pruneAux matched (i + 1) rest
    else f :: pruneAux matched (i + 1) rest

/-- `IntensityFeatureMatcher::prune`. The matched-index set (a `BTreeSet`) is
represented by its sorted, duplicate-free element list. -/
def IntensityFeatureMatcher.prune (m : IntensityFeatureMatcher)
    (matched_indices : List ℕ) : IntensityFeatureMatcher :=
  { m with feature_vector := pruneAux matched_indices 0 m.feature_vector }

/-- `FrameStatus` from `stereo_frame_point_generator.rs`. -/
inductive FrameStatus where
  | Localizing
  | Tracking
deriving DecidableEq

/-- The epipolar row offset sequence built by
`StereoFramePointGeneratorCfg::finalize`: `vec![0]` followed by pushes of
`i, -i` for `i` in the Rust range `1..maximum_epipolar_search_offset_pixels`
(upper bound exclusive). -/
def epipolarSearchOffsets (maximum_epipolar_search_offset_pixels : ℤ) : List ℤ :=
  0 :: (List.range (maximum_epipolar_search_offset_pixels - 1).toNat).flatMap
    (fun k => [(k : ℤ) + 1, -((k : ℤ) + 1)])

/-- The offset sequence as the specification words it: `0, +1, −1, +2, −2, ...`
extending up to the configured maximum `m` inclusive. -/
def claimedEpipolarOffsets (m : ℤ) : List ℤ :=
  0 :: (List.range m.toNat).flatMap (fun k => [(k : ℤ) + 1, -((k : ℤ) + 1)])

/-- The per-region threshold feedback step of `detect_keypoints`
(`stereo_frame_point_generator.rs` and `frame_point_generator.rs` share it
verbatim): `delta = (count − target) / target`; below tolerance the change is
`max(delta, maximum_change)` with the applied increment clamped to at most
`−1` and the result floored at the minimum threshold; above tolerance the
change is `min(delta, maximum_change)` with the applied increment clamped to
at least `1`. -/
def updateDetectorThreshold (tolerance maximum_change threshold_minimum : ℚ)
    (count target threshold : ℚ) : ℚ :=
  let delta := (count - target) / target
  if delta < -tolerance then
    let change := max delta maximum_change
    let t := threshold + min (change * threshold) (-1)
    if t < threshold_minimum then threshold_minimum else t
  else if delta > tolerance then
    let change := min delta maximum_change
    threshold + max (change * threshold) 1
  else threshold

/-- The threshold feedback step as the specification words it: the decrease
branch uses `clamp(delta, −∞, threshold_max_step) = min(delta, step)` and the
increase branch `clamp(delta, threshold_max_step, +∞) = max(delta, step)`. -/
def updateDetectorThresholdClaimed (tolerance maximum_change threshold_minimum : ℚ)
    (count target threshold : ℚ) : ℚ :=
  let delta := (count - target) / target
  if delta < -tolerance then
    let change := min delta maximum_change
    let t := threshold + min (change * threshold) (-1)
    if t < threshold_minimum then threshold_minimum else t
  else if delta > tolerance then
    let change := max delta maximum_change
    threshold + max (change * threshold) 1
  else threshold

/-- The update of `current_maximum_descriptor_distance_triangulation`
performed by `StereoFramePointGenerator::initialize` when features are
extracted: `Localizing` resets to `0.1 * 256`; `Tracking` scales by
`min(detected / target, 1.0)` and floors at `0.1 * 256`. -/
def updateMaxDescriptorDistanceTriangulation (status : FrameStatus)
    (number_of_detected_keypoints : ℕ) (target_number_of_keypoints current : ℚ) : ℚ :=
  match status with
  | FrameStatus.Localizing => (0.1 : ℚ) * 256
  | FrameStatus.Tracking =>
    let ratio_available_points :=
      min ((number_of_detected_keypoints : ℚ) / target_number_of_keypoints) 1
    max (ratio_available_points * current) ((0.1 : ℚ) * 256)

/-- The value `finalize` stores in
`current_maximum_descriptor_distance_triangulation`: the configuration's
`maximum_matching_distance_triangulation` is ignored and the constant
`0.1 * 256` is used. -/
def finalizeMaxDescriptorDistanceTriangulation
    (_maximum_matching_distance_triangulation : ℤ) : ℚ :=
  (0.1 : ℚ) * 256

/-- First inner loop of `get_epipolar_matches`: advance the left index while
`left[iL].row < bound` (`bound = right[iR].row + offset`); reaching the end of
the left vector breaks the outer loop (`none`). The fuel argument is the loop
bound: the index grows by one per iteration, so `L.length + 1` steps always
suffice. -/
def advanceL (L : List IntensityFeature) (bound : ℤ) : ℕ → ℕ → Option ℕ
  | 0, _ => none
  | fuel + 1, iL =>
    if h : iL < L.length then
      if (L.get ⟨iL, h⟩).row < bound then advanceL L bound fuel (iL + 1)
      else some iL
    else none

/-- Second inner loop of `get_epipolar_matches`: advance the right index while
`flRow > right[iR].row + offset`; reaching the end of the right vector breaks
the outer loop (`none`). -/
def advanceR (R : List IntensityFeature) (flRow off : ℤ) : ℕ → ℕ → Option ℕ
  | 0, _ => none
  | fuel + 1, iR =>
    if h : iR < R.length then
      if flRow > (R.get ⟨iR, h⟩).row + off then advanceR R flRow off fuel (iR + 1)
      else some iR
    else none

/-- Candidate scan of `get_epipolar_matches`: walk right features sharing the
epipolar row (`fl.row == right[iS].row + offset`), stop at the first negative
column delta, and keep the index of the strictly smallest descriptor distance
seen so far (`best` starts at the current maximum descriptor distance,
`bestR` at `0`). -/
def searchBest (R : List IntensityFeature) (fl : IntensityFeature) (off : ℤ) :
    ℕ → ℕ → ℚ → ℕ → ℚ × ℕ
  | 0, _, best, bestR => (best, bestR)
  | fuel + 1, iS, best, bestR =>
    if h : iS < R.length then
      let fr := R.get ⟨iS, h⟩
      if fl.row = fr.row + off then
        if fl.col - fr.col < 0 then (best, bestR)
        else
          let d : ℚ := (hammingNorm fl.descriptor fr.descriptor : ℚ)
          if d < best then searchBest R fl off fuel (iS + 1) d iS
          else searchBest R fl off fuel (iS + 1) best bestR
      else (best, bestR)
    else (best, bestR)

/-- The outer two-pointer sweep of `get_epipolar_matches`, accumulating the
accepted `(left index, right index)` pairs in acceptance order (the source
inserts both indices into their `BTreeSet`s at this moment). On acceptance
the right pointer jumps past the accepted right index; the left pointer
always advances. The fuel is the loop bound: the left index strictly
increases every iteration, so `L.length + 1` steps always suffice. -/
def matchLoop (L R : List IntensityFeature) (off : ℤ) (maxDist : ℚ) :
    ℕ → ℕ → ℕ → List (ℕ × ℕ) → List (ℕ × ℕ)
  | 0, _, _, acc => acc
  | fuel + 1, iL, iR, acc =>
    if iL < L.length then
      if iR = R.length then acc
      else
        match advanceL L ((R.getD iR default).row + off) (L.length + 1) iL with
        | none => acc
        | some iL' =>
          let fl := L.getD iL' default
          match advanceR R fl.row off (R.length + 1) iR with
          | none => acc
          | some iR' =>
            let br := searchBest R fl off (R.length + 1) iR' maxDist 0
            if br.1 < maxDist then
              matchLoop L R off maxDist fuel (iL' + 1) (br.2 + 1) (acc ++ [(iL', br.2)])
            else
              matchLoop L R off maxDist fuel (iL' + 1) iR' acc
    else acc

/-- `BTreeSet<usize>::insert`: sorted, duplicate-free insertion. -/
def btreeInsert (x : ℕ) : List ℕ → List ℕ
  | [] => [x]
  | y :: ys =>
    if x < y then x :: y :: ys
    else if x = y then y :: ys
    else y :: btreeInsert x ys

/-- The contents (in iteration order) of a `BTreeSet` after inserting the
given elements in order. -/
def btreeOfList (xs : List ℕ) : List ℕ :=
  xs.foldl (fun s x => btreeInsert x s) []

/-- `StereoFramePointGenerator::get_epipolar_matches`: sort both flat feature
vectors by `(row, col)`, run the two-pointer sweep, read the matched
keypoints back in increasing matched-index order (`BTreeSet` iteration), and
prune both matchers by their matched-index sets. Returns the two pruned
matchers together with the matched left/right keypoint lists. -/
def getEpipolarMatches (mL mR : IntensityFeatureMatcher) (off : ℤ) (maxDist : ℚ) :
    (IntensityFeatureMatcher × IntensityFeatureMatcher) × (List Keypoint × List Keypoint) :=
  let mLs := mL.sort_feature_vector
  let mRs := mR.sort_feature_vector
  let pairs := matchLoop mLs.feature_vector mRs.feature_vector off maxDist
    (mLs.feature_vector.length + 1) 0 0 []
  let matchedLeft := btreeOfList (pairs.map Prod.fst)
  let matchedRight := btreeOfList (pairs.map Prod.snd)
  let leftKeypoints := matchedLeft.map (fun i => (mLs.feature_vector.getD i default).keypoint)
  let rightKeypoints := matchedRight.map (fun i => (mRs.feature_vector.getD i default).keypoint)
  ((mLs.prune matchedLeft, mRs.prune matchedRight), (leftKeypoints, rightKeypoints))

/-- The fields of `StereoFramePointGenerator` read by the correspondence
search (`get_epipolar_matches` / `compute_frame_point`). -/
structure StereoFramePointGenerator where
  current_maximum_descriptor_distance_triangulation : ℚ
  minimum_disparity_pixels : ℚ
  epipolar_search_distance : List ℤ
  feature_matcher_left : IntensityFeatureMatcher
  feature_matcher_right : IntensityFeatureMatcher

/-- `StereoFramePointGenerator::compute_frame_point`: iterate the configured
epipolar offsets in order, calling `get_epipolar_matches` at each; for every
returned pair the source computes `disparity = left.pt().x - right.pt().x`
and `continue`s when `disparity < minimum_disparity_pixels` — the loop body
after that check is empty, so no `StereoFramepoint` is built and the
delivered list stays empty. -/
def compute_frame_point (g : StereoFramePointGenerator) :
    StereoFramePointGenerator × List (Keypoint × Keypoint) :=
  let res := g.epipolar_search_distance.foldl
    (fun (st : (IntensityFeatureMatcher × IntensityFeatureMatcher) × List (Keypoint × Keypoint))
        off =>
      let r := getEpipolarMatches st.1.1 st.1.2 off
        g.current_maximum_descriptor_distance_triangulation
      (r.1, st.2))
    ((g.feature_matcher_left, g.feature_matcher_right), [])
  ({ g with feature_matcher_left := res.1.1, feature_matcher_right := res.1.2 }, res.2)

/-- Instrumentation of the same loop as `compute_frame_point`: the matched
pairs that pass the minimum-disparity check (those the source does not
`continue` past), across all configured offsets in order. -/
def survivingPairs (g : StereoFramePointGenerator) : List (Keypoint × Keypoint) :=
  (g.epipolar_search_distance.foldl
    (fun (st : (IntensityFeatureMatcher × IntensityFeatureMatcher) × List (Keypoint × Keypoint))
        off =>
      let r := getEpipolarMatches st.1.1 st.1.2 off
        g.current_maximum_descriptor_distance_triangulation
      (r.1, st.2 ++ (r.2.1.zip r.2.2).filter
        (fun p => !decide (p.1.x - p.2.x < g.minimum_disparity_pixels))))
    ((g.feature_matcher_left, g.feature_matcher_right), [])).2

/-- `StereoFramepoint` from `stereo_framepoint.rs` (the process-wide atomic
identifier counter is outside this pure model). -/
structure StereoFramepoint where
  keypoint_left : Keypoint
  keypoint_right : Keypoint
  descriptor_left : Descriptor
  descriptor_right : Descriptor
  disparity_pixels : ℚ
  row : ℤ
  col : ℤ
deriving DecidableEq

/-- `StereoFramepoint::new`: note the source stores
`disparity_pixels = keypoint_left.pt().x - keypoint_right.pt().y`. -/
def StereoFramepoint.new (keypoint_left keypoint_right : Keypoint)
    (descriptor_left descriptor_right : Descriptor) : StereoFramepoint :=
  { keypoint_left := keypoint_left, keypoint_right := keypoint_right,
    descriptor_left := descriptor_left, descriptor_right := descriptor_right,
    disparity_pixels := keypoint_left.x - keypoint_right.y,
    row := truncQ keypoint_left.y, col := truncQ keypoint_left.x }

/-- The conditions every accepted `(left index, right index)` pair satisfies,
relative to the row-sorted feature vectors the sweep runs over. -/
def acceptedPairOK (L R : List IntensityFeature) (off : ℤ) (maxDist : ℚ) (p : ℕ × ℕ) : Prop :=
  p.1 < L.length ∧ p.2 < R.length ∧
  (L.getD p.1 default).row = (R.getD p.2 default).row + off ∧
  0 ≤ (L.getD p.1 default).col - (R.getD p.2 default).col ∧
  ((hammingNorm (L.getD p.1 default).descriptor (R.getD p.2 default).descriptor : ℚ)) < maxDist

/-- The left matcher of the end-to-end concrete instance: one feature from
the keypoint at `(x, y) = (10, 5)`. -/
def exampleMatcherLeft : IntensityFeatureMatcher :=
  ((IntensityFeatureMatcher.configure 6 11).set_fatures [⟨10, 5⟩] [[true]]).1

/-- The right matcher of the end-to-end concrete instance: one feature from
the keypoint at `(x, y) = (4, 5)` — same row, disparity `10 − 4 = 6`. -/
def exampleMatcherRight : IntensityFeatureMatcher :=
  ((IntensityFeatureMatcher.configure 6 11).set_fatures [⟨4, 5⟩] [[true]]).1

/-- A generator state with the default configuration's derived values
(`max_dist = 0.1 × 256`, `minimum_disparity_pixels = 1`, offsets for the
default maximum 0) holding the two example matchers. -/
def exampleGenerator : StereoFramePointGenerator :=
  { current_maximum_descriptor_distance_triangulation := (0.1 : ℚ) * 256,
    minimum_disparity_pixels := 1,
    epipolar_search_distance := epipolarSearchOffsets 0,
    feature_matcher_left := exampleMatcherLeft,
    feature_matcher_right := exampleMatcherRight }

/-- Rectangularity of a lattice: `rows` rows, each of width `cols` (the shape
`configure` allocates and all lattice operations preserve). -/
def latShape (lat : List (List (Option IntensityFeature))) (rows cols : ℕ) : Prop :=
  lat.length = rows ∧ ∀ rowL ∈ lat, rowL.length = cols

/-- The per-feature lattice write of `set_fatures`, iterated over a feature
list (`feature_lattice[row][col] = Some(feature)` in detection order). -/
def writeFold (fs : List IntensityFeature)
    (lat : List (List (Option IntensityFeature))) : List (List (Option IntensityFeature)) :=
  fs.foldl (fun l f => set2 l f.row f.col (some f)) lat

/-- Clearing every lattice cell, as the double loop at the start of
`set_fatures` does over the full configured grid. -/
def clearLattice (lat : List (List (Option IntensityFeature))) :
    List (List (Option IntensityFeature)) :=
  lat.map (fun rowL => rowL.map (fun _ => none))

/-- Two keypoints that truncate to the same lattice cell `(0, 0)`, with
distinct descriptors: the collision instance for `set_fatures`. -/
def collidingMatcher : IntensityFeatureMatcher :=
  ((IntensityFeatureMatcher.configure 2 2).set_fatures [⟨0, 0⟩, ⟨0, 0⟩]
    [[true], [false]]).1

/-- A three-feature flat list used to exercise `prune`. -/
def pruneExampleMatcher : IntensityFeatureMatcher :=
  { number_of_rows := 4, number_of_cols := 4,
    feature_lattice := [],
    feature_vector :=
      [⟨⟨0, 1⟩, [true], 1, 0, 0⟩, ⟨⟨1, 2⟩, [false], 2, 1, 1⟩, ⟨⟨2, 3⟩, [true], 3, 2, 2⟩] }

/-! ### Helper lemmas about `pruneAux` -/

theorem pruneAux_sublist (M : List ℕ) : ∀ (fv : List IntensityFeature) (k : ℕ),
    (pruneAux M k fv).Sublist fv
  | [], _ => List.Sublist.refl []
  | f :: rest, k => by
    simp only [pruneAux]
    rcases Decidable.em (k ∈ M) with h | h
    · rw [if_pos h]
      exact (pruneAux_sublist M rest (k + 1)).cons f
    · rw [if_neg h]
      exact (pruneAux_sublist M rest (k + 1)).cons₂ f

theorem pruneAux_congr (M M' : List ℕ) : ∀ (fv : List IntensityFeature) (k : ℕ),
    (∀ i, k ≤ i → (i ∈ M ↔ i ∈ M')) → pruneAux M k fv = pruneAux M' k fv
  | [], _, _ => rfl
  | f :: rest, k, h => by
    have hk : (k ∈ M) = (k ∈ M') := propext (h k le_rfl)
    have ih := pruneAux_congr M M' rest (k + 1) (fun i hi => h i (le_trans (Nat.le_succ k) hi))
    simp only [pruneAux, hk, ih]

theorem pruneAux_length (M : List ℕ) : ∀ (fv : List IntensityFeature) (k : ℕ),
    M.Nodup → (∀ i ∈ M, k ≤ i ∧ i < k + fv.length) →
    (pruneAux M k fv).length + M.length = fv.length
  | [], k, _, hb => by
    have : M = [] := by
      apply List.eq_nil_iff_forall_not_mem.mpr
      intro i hi
      have := hb i hi
      simp only [List.length_nil] at this
      omega
    simp [pruneAux, this]
  | f :: rest, k, hnd, hb => by
    simp only [pruneAux]
    rcases Decidable.em (k ∈ M) with h | h
    · rw [if_pos h]
      have hcongr : pruneAux M (k + 1) rest = pruneAux (M.erase k) (k + 1) rest := by
        apply pruneAux_congr
        intro i hi
        have hne : i ≠ k := by omega
        exact (List.mem_erase_of_ne hne).symm
      have ih := pruneAux_length (M.erase k) rest (k + 1) (hnd.erase k) ?bounds
      case bounds =>
        intro i hi
        have him : i ∈ M := List.mem_of_mem_erase hi
        have hne : i ≠ k := ((hnd.mem_erase_iff).mp hi).1
        have := hb i him
        simp only [List.length_cons] at this
        omega
      have herase : (M.erase k).length + 1 = M.length := by
        rw [List.length_erase_of_mem h]
        have : 1 ≤ M.length := List.length_pos.mpr (List.ne_nil_of_mem h)
        omega
      rw [hcongr]
      simp only [List.length_cons]
      omega
    · rw [if_neg h]
      have ih := pruneAux_length M rest (k + 1) hnd ?bounds
      case bounds =>
        intro i hi
        have := hb i hi
        have hne : i ≠ k := fun he => h (he ▸ hi)
        simp only [List.length_cons] at this
        omega
      simp only [List.length_cons]
      omega

theorem pruneAux_eq_filter (M : List ℕ) : ∀ (fv : List IntensityFeature) (k : ℕ),
    pruneAux M k fv
      = ((List.enumFrom k fv).filter (fun p => !decide (p.1 ∈ M))).map Prod.snd
  | [], _ => rfl
  | f :: rest, k => by
    have ih := pruneAux_eq_filter M rest (k + 1)
    rcases Decidable.em (k ∈ M) with h | h
    · simp [pruneAux, List.enumFrom, h, ih]
    · simp [pruneAux, List.enumFrom, h, ih]

/-! ### Claim C9: epipolar offset sequence -/

/-- C9 counterexample: with configured maximum `m = 2` the engine's offset
sequence is `[0, 1, -1]`, not the claimed `0, +1, −1, +2, −2` extending up to
the maximum `m = 2` — the Rust range `1..m` excludes `m`. -/
theorem epipolar_offsets_ne_claimed_at_two :
    epipolarSearchOffsets 2 ≠ claimedEpipolarOffsets 2 := by
  decide

/-- C9 (amended): the ordered offset sequence starts with `0` and then runs
`+1, −1, +2, −2, ...` only up to `m − 1` — it is the spec's sequence for
maximum `m − 1`, the configured maximum itself is never searched; in
particular both `m = 0` and `m = 1` give just `[0]`. -/
theorem epipolar_offsets_shape (m : ℤ) :
    epipolarSearchOffsets m = claimedEpipolarOffsets (m - 1) ∧
    (epipolarSearchOffsets m).head? = some 0 ∧
    epipolarSearchOffsets 0 = [0] ∧ epipolarSearchOffsets 1 = [0] := by
  refine ⟨rfl, rfl, rfl, rfl⟩

/-! ### Claim C4: detector threshold feedback -/

/-- C4 counterexample: region with target 100, count 50 (`delta = −1/2`),
tolerance `1/10`, maximum change `1/2`, minimum threshold 15, current
threshold 20: the code yields `20 − 1 = 19` (its decrease branch clamps
`delta` from below at `+1/2`, so the applied change is always the cap `−1`),
while the claim's formula `clamp(delta, −∞, step) × threshold = −10` floored
at 15 yields 15. -/
theorem detector_threshold_ne_claimed :
    updateDetectorThreshold (1/10) (1/2) 15 50 100 20 ≠
      updateDetectorThresholdClaimed (1/10) (1/2) 15 50 100 20 := by
  have h1 : updateDetectorThreshold (1/10) (1/2) 15 50 100 20 = 19 := by
    norm_num [updateDetectorThreshold]
  have h2 : updateDetectorThresholdClaimed (1/10) (1/2) 15 50 100 20 = 15 := by
    norm_num [updateDetectorThresholdClaimed]
  rw [h1, h2]
  norm_num

/-- C4 (amended): with `delta = (count − target)/target`, nonnegative
tolerance and threshold, and positive maximum step: if `delta < −tolerance`
the threshold decreases by exactly 1 (the code computes
`change = max(delta, threshold_max_step)`, which is positive, so the applied
increment `min(change × threshold, −1)` is always `−1`), floored at
`threshold_min`; if `delta > tolerance` it increases by
`max(min(delta, threshold_max_step) × threshold, 1)`; otherwise it is
unchanged. -/
theorem detector_threshold_characterization
    (tolerance maximum_change threshold_minimum count target threshold : ℚ)
    (htol : 0 ≤ tolerance) (hstep : 0 < maximum_change) (hth : 0 ≤ threshold) :
    ((count - target) / target < -tolerance →
      updateDetectorThreshold tolerance maximum_change threshold_minimum count target threshold
        = max (threshold - 1) threshold_minimum) ∧
    ((count - target) / target > tolerance →
      updateDetectorThreshold tolerance maximum_change threshold_minimum count target threshold
        = threshold + max (min ((count - target) / target) maximum_change * threshold) 1) ∧
    (-tolerance ≤ (count - target) / target → (count - target) / target ≤ tolerance →
      updateDetectorThreshold tolerance maximum_change threshold_minimum count target threshold
        = threshold) := by
  set delta := (count - target) / target with hdelta
  refine ⟨fun hlt => ?_, fun hgt => ?_, fun hge hle => ?_⟩
  · have hchange : max delta maximum_change = maximum_change := by
      have : delta < maximum_change := by
        calc delta < -tolerance := hlt
        _ ≤ 0 := by linarith
        _ < maximum_change := hstep
      exact max_eq_right this.le
    have hmin : min (maximum_change * threshold) (-1) = (-1 : ℚ) := by
      have : (-1 : ℚ) ≤ maximum_change * threshold := by
        have := mul_nonneg hstep.le hth
        linarith
      exact min_eq_right this
    simp only [updateDetectorThreshold, ← hdelta, if_pos hlt, hchange, hmin]
    rcases lt_or_le (threshold + -1) threshold_minimum with hc | hc
    · rw [if_pos hc]
      have : threshold - 1 ≤ threshold_minimum := by linarith
      rw [max_eq_right this]
    · rw [if_neg (not_lt.mpr hc)]
      have : threshold_minimum ≤ threshold - 1 := by linarith
      rw [max_eq_left this]
      ring
  · have hnlt : ¬ delta < -tolerance := by
      intro hcon
      have : delta < delta := by
        calc delta < -tolerance := hcon
        _ ≤ 0 := by linarith
        _ < delta := lt_trans (by linarith : (0:ℚ) < tolerance) hgt
      exact absurd this (lt_irrefl delta)
    simp only [updateDetectorThreshold, ← hdelta, if_neg hnlt, if_pos hgt]
  · have hnlt : ¬ delta < -tolerance := not_lt.mpr hge
    have hngt : ¬ delta > tolerance := not_lt.mpr hle
    simp only [updateDetectorThreshold, ← hdelta, if_neg hnlt, if_neg hngt]

/-- C4 witness: the amended characterization evaluated at the counterexample
configuration (decrease branch) gives `max (20 − 1) 15 = 19`. -/
theorem detector_threshold_characterization_witness :
    (0 : ℚ) ≤ 1/10 ∧ (0 : ℚ) < 1/2 ∧ (0 : ℚ) ≤ 20 ∧
    updateDetectorThreshold (1/10) (1/2) 15 50 100 20 = max (20 - 1) 15 := by
  refine ⟨by norm_num, by norm_num, by norm_num, ?_⟩
  exact (detector_threshold_characterization (1/10) (1/2) 15 50 100 20
    (by norm_num) (by norm_num) (by norm_num)).1 (by norm_num)

/-! ### Claim C10: the triangulation descriptor-distance threshold is constant -/

/-- C10: the configured `maximum_matching_distance_triangulation` is ignored
by `finalize` (the stored initial value is the constant `0.1 × 256` for every
configuration), and for every sequence of `initialize` calls — any frame
statuses, any detected-keypoint counts, any target — the current maximum
descriptor distance stays exactly `0.1 × 256 = 25.6`: `Localizing` resets to
it, and `Tracking` scales by a ratio that is at most 1 and floors back at it. -/
theorem max_descriptor_distance_constant :
    (∀ a b : ℤ, finalizeMaxDescriptorDistanceTriangulation a
      = finalizeMaxDescriptorDistanceTriangulation b) ∧
    (∀ a : ℤ, finalizeMaxDescriptorDistanceTriangulation a = 25.6) ∧
    (∀ (events : List (FrameStatus × ℕ)) (target : ℚ),
      events.foldl
        (fun cur e => updateMaxDescriptorDistanceTriangulation e.1 e.2 target cur)
        ((0.1 : ℚ) * 256) = (0.1 : ℚ) * 256) := by
  refine ⟨fun _ _ => rfl, fun _ => by norm_num [finalizeMaxDescriptorDistanceTriangulation], ?_⟩
  intro events target
  induction events with
  | nil => rfl
  | cons e rest ih =>
    have hstep : updateMaxDescriptorDistanceTriangulation e.1 e.2 target ((0.1 : ℚ) * 256)
        = (0.1 : ℚ) * 256 := by
      cases hs : e.1 with
      | Localizing => simp [updateMaxDescriptorDistanceTriangulation]
      | Tracking =>
        simp only [updateMaxDescriptorDistanceTriangulation]
        have hle : min ((e.2 : ℚ) / target) 1 * ((0.1 : ℚ) * 256) ≤ (0.1 : ℚ) * 256 := by
          have h1 : min ((e.2 : ℚ) / target) 1 ≤ 1 := min_le_right _ _
          have h2 : (0 : ℚ) ≤ (0.1 : ℚ) * 256 := by norm_num
          calc min ((e.2 : ℚ) / target) 1 * ((0.1 : ℚ) * 256)
              ≤ 1 * ((0.1 : ℚ) * 256) := mul_le_mul_of_nonneg_right h1 h2
          _ = (0.1 : ℚ) * 256 := one_mul _
        exact max_eq_right hle
    rw [List.foldl_cons, hstep, ih]

/-! ### Claim C8: count mismatch leaves the matcher untouched -/

/-- C8: whenever the keypoint count differs from the descriptor-row count,
`set_fatures` returns the count-mismatch error and the matcher — lattice and
flat feature list included — is exactly the one from before the call. -/
theorem set_fatures_mismatch_no_mutation (m : IntensityFeatureMatcher)
    (keypoints : List Keypoint) (descriptors : List Descriptor)
    (h : keypoints.length ≠ descriptors.length) :
    m.set_fatures keypoints descriptors
      = (m, Except.error "Number of keypoints and descriptors do not match") := by
  simp only [IntensityFeatureMatcher.set_fatures, if_pos h]

/-- C8 witness: 1 keypoint against 0 descriptor rows fails without mutating
the configured matcher. -/
theorem set_fatures_mismatch_no_mutation_witness :
    ([(⟨1, 1⟩ : Keypoint)].length ≠ ([] : List Descriptor).length) ∧
    (IntensityFeatureMatcher.configure 2 2).set_fatures [⟨1, 1⟩] []
      = (IntensityFeatureMatcher.configure 2 2,
         Except.error "Number of keypoints and descriptors do not match") := by
  exact ⟨by decide,
    set_fatures_mismatch_no_mutation (IntensityFeatureMatcher.configure 2 2)
      [⟨1, 1⟩] [] (by decide)⟩

/-! ### Helper lemmas about the two-pointer sweep -/

theorem advanceL_spec (L : List IntensityFeature) (bound : ℤ) :
    ∀ (fuel iL j : ℕ), advanceL L bound fuel iL = some j → iL ≤ j ∧ j < L.length
  | 0, _, _, h => by exact absurd h (by simp [advanceL])
  | fuel + 1, iL, j, h => by
    rw [advanceL] at h
    by_cases hl : iL < L.length
    · rw [dif_pos hl] at h
      by_cases hrow : (L.get ⟨iL, hl⟩).row < bound
      · rw [if_pos hrow] at h
        have := advanceL_spec L bound fuel (iL + 1) j h
        exact ⟨by omega, this.2⟩
      · rw [if_neg hrow] at h
        cases h
        exact ⟨le_rfl, hl⟩
    · rw [dif_neg hl] at h
      exact absurd h (by simp)

theorem advanceR_spec (R : List IntensityFeature) (flRow off : ℤ) :
    ∀ (fuel iR j : ℕ), advanceR R flRow off fuel iR = some j → iR ≤ j ∧ j < R.length
  | 0, _, _, h => by exact absurd h (by simp [advanceR])
  | fuel + 1, iR, j, h => by
    rw [advanceR] at h
    by_cases hl : iR < R.length
    · rw [dif_pos hl] at h
      by_cases hrow : flRow > (R.get ⟨iR, hl⟩).row + off
      · rw [if_pos hrow] at h
        have := advanceR_spec R flRow off fuel (iR + 1) j h
        exact ⟨by omega, this.2⟩
      · rw [if_neg hrow] at h
        cases h
        exact ⟨le_rfl, hl⟩
    · rw [dif_neg hl] at h
      exact absurd h (by simp)

/-- Postcondition of the candidate scan: either nothing improved on the
incoming `(best, bestR)`, or the result records an examined in-bounds right
feature on the epipolar row with nonnegative column delta whose descriptor
distance is the returned (strictly improved) best value. -/
theorem searchBest_spec (R : List IntensityFeature) (fl : IntensityFeature) (off : ℤ) :
    ∀ (fuel iS : ℕ) (best : ℚ) (bestR : ℕ),
    searchBest R fl off fuel iS best bestR = (best, bestR) ∨
    ((searchBest R fl off fuel iS best bestR).1 < best ∧
      iS ≤ (searchBest R fl off fuel iS best bestR).2 ∧
      (searchBest R fl off fuel iS best bestR).2 < R.length ∧
      fl.row = (R.getD (searchBest R fl off fuel iS best bestR).2 default).row + off ∧
      0 ≤ fl.col - (R.getD (searchBest R fl off fuel iS best bestR).2 default).col ∧
      (searchBest R fl off fuel iS best bestR).1
        = (hammingNorm fl.descriptor
            (R.getD (searchBest R fl off fuel iS best bestR).2 default).descriptor : ℚ))
  | 0, _, _, _ => Or.inl rfl
  | fuel + 1, iS, best, bestR => by
    rw [searchBest]
    by_cases hl : iS < R.length
    · rw [dif_pos hl]
      by_cases hrow : fl.row = (R.get ⟨iS, hl⟩).row + off
      · rw [if_pos hrow]
        by_cases hcol : fl.col - (R.get ⟨iS, hl⟩).col < 0
        · rw [if_pos hcol]
          exact Or.inl rfl
        · rw [if_neg hcol]
          have hget : R.getD iS default = R.get ⟨iS, hl⟩ := by
            rw [List.getD_eq_getElem?_getD, List.getElem?_eq_getElem hl]
            rfl
          by_cases hd : (hammingNorm fl.descriptor (R.get ⟨iS, hl⟩).descriptor : ℚ) < best
          · rw [if_pos hd]
            rcases searchBest_spec R fl off fuel (iS + 1)
              ((hammingNorm fl.descriptor (R.get ⟨iS, hl⟩).descriptor : ℚ)) iS with heq | himp
            · refine Or.inr ?_
              rw [heq]
              exact ⟨hd, le_rfl, hl, by rw [hget]; exact hrow,
                by rw [hget]; omega, by rw [hget]⟩
            · refine Or.inr ?_
              exact ⟨lt_trans himp.1 hd, by omega, himp.2.2.1, himp.2.2.2.1,
                himp.2.2.2.2.1, himp.2.2.2.2.2⟩
          · rw [if_neg hd]
            rcases searchBest_spec R fl off fuel (iS + 1) best bestR with heq | himp
            · exact Or.inl heq
            · exact Or.inr ⟨himp.1, by omega, himp.2.2.1, himp.2.2.2.1,
                himp.2.2.2.2.1, himp.2.2.2.2.2⟩
      · rw [if_neg hrow]
        exact Or.inl rfl
    · rw [dif_neg hl]
      exact Or.inl rfl

/-- Main invariant of the outer sweep: the accumulator is only extended; every
new pair is at or beyond the current pointers and satisfies the acceptance
conditions; and the new pairs are strictly increasing in both components. -/
theorem matchLoop_spec (L R : List IntensityFeature) (off : ℤ) (maxDist : ℚ) :
    ∀ (fuel iL iR : ℕ) (acc : List (ℕ × ℕ)),
    ∃ ext, matchLoop L R off maxDist fuel iL iR acc = acc ++ ext ∧
      (∀ p ∈ ext, iL ≤ p.1 ∧ iR ≤ p.2 ∧ acceptedPairOK L R off maxDist p) ∧
      ext.Pairwise (fun p q => p.1 < q.1 ∧ p.2 < q.2)
  | 0, iL, iR, acc => ⟨[], by simp [matchLoop], by simp, List.Pairwise.nil⟩
  | fuel + 1, iL, iR, acc => by
    rw [matchLoop]
    by_cases hL : iL < L.length
    · rw [if_pos hL]
      by_cases hR : iR = R.length
      · rw [if_pos hR]
        exact ⟨[], by simp, by simp, List.Pairwise.nil⟩
      · rw [if_neg hR]
        rcases hadv : advanceL L ((R.getD iR default).row + off) (L.length + 1) iL with _ | iL'
        · exact ⟨[], by simp, by simp, List.Pairwise.nil⟩
        · have hL' := advanceL_spec L ((R.getD iR default).row + off) (L.length + 1) iL iL' hadv
          simp only
          rcases hadvR : advanceR R ((L.getD iL' default).row) off (R.length + 1) iR with _ | iR'
          · exact ⟨[], by simp, by simp, List.Pairwise.nil⟩
          · have hR' := advanceR_spec R ((L.getD iL' default).row) off (R.length + 1) iR iR' hadvR
            simp only
            by_cases hacc : (searchBest R (L.getD iL' default) off (R.length + 1) iR' maxDist 0).1
                < maxDist
            · rw [if_pos hacc]
              rcases searchBest_spec R (L.getD iL' default) off (R.length + 1) iR' maxDist 0
                with heq | himp
              · rw [heq] at hacc
                exact absurd hacc (lt_irrefl maxDist)
              · obtain ⟨ext', hext', hprops', hpw'⟩ := matchLoop_spec L R off maxDist fuel
                  (iL' + 1)
                  ((searchBest R (L.getD iL' default) off (R.length + 1) iR' maxDist 0).2 + 1)
                  (acc ++ [(iL', (searchBest R (L.getD iL' default) off
                    (R.length + 1) iR' maxDist 0).2)])
                refine ⟨(iL', (searchBest R (L.getD iL' default) off
                  (R.length + 1) iR' maxDist 0).2) :: ext', ?_, ?_, ?_⟩
                · rw [hext', List.append_assoc]
                  rfl
                · intro p hp
                  rcases List.mem_cons.mp hp with hp0 | hpext
                  · subst hp0
                    refine ⟨hL'.1, le_trans hR'.1 himp.2.1, hL'.2, himp.2.2.1, himp.2.2.2.1,
                      himp.2.2.2.2.1, ?_⟩
                    rw [← himp.2.2.2.2.2]
                    exact hacc
                  · have := hprops' p hpext
                    exact ⟨by omega, by omega, this.2.2⟩
                · rw [List.pairwise_cons]
                  refine ⟨?_, hpw'⟩
                  intro q hq
                  have := hprops' q hq
                  exact ⟨by omega, by omega⟩
            · rw [if_neg hacc]
              obtain ⟨ext', hext', hprops', hpw'⟩ := matchLoop_spec L R off maxDist fuel
                (iL' + 1) iR' acc
              refine ⟨ext', hext', ?_, hpw'⟩
              intro p hp
              have := hprops' p hp
              exact ⟨by omega, le_trans hR'.1 this.2.1, this.2.2⟩
    · rw [if_neg hL]
      exact ⟨[], by simp, by simp, List.Pairwise.nil⟩

theorem btreeInsert_of_gt : ∀ (s : List ℕ) (x : ℕ), (∀ y ∈ s, y < x) →
    btreeInsert x s = s ++ [x]
  | [], _, _ => rfl
  | y :: ys, x, h => by
    have hy : y < x := h y (List.mem_cons_self y ys)
    rw [btreeInsert, if_neg (by omega), if_neg (by omega),
      btreeInsert_of_gt ys x (fun z hz => h z (List.mem_cons_of_mem y hz))]
    rfl

theorem btreeOfList_aux : ∀ (xs s : List ℕ), xs.Pairwise (· < ·) →
    (∀ y ∈ s, ∀ x ∈ xs, y < x) →
    xs.foldl (fun t x => btreeInsert x t) s = s ++ xs
  | [], s, _, _ => by simp
  | x :: xs, s, hpw, hs => by
    rw [List.foldl_cons, btreeInsert_of_gt s x (fun y hy => hs y hy x (List.mem_cons_self x xs)),
      btreeOfList_aux xs (s ++ [x]) (List.Pairwise.of_cons hpw) ?later]
    · simp
    case later =>
      intro y hy z hz
      rcases List.mem_append.mp hy with hys | hyx
      · exact hs y hys z (List.mem_cons_of_mem x hz)
      · have : y = x := List.mem_singleton.mp hyx
        subst this
        exact (List.pairwise_cons.mp hpw).1 z hz

/-- A strictly increasing insertion sequence leaves a `BTreeSet` whose
iteration order is exactly the insertion order. -/
theorem btreeOfList_of_pairwise (xs : List ℕ) (h : xs.Pairwise (· < ·)) :
    btreeOfList xs = xs := by
  have := btreeOfList_aux xs [] h (by simp)
  simpa [btreeOfList] using this

/-! ### Claim C3: conditions satisfied by every accepted pair -/

/-- C3: in any call of the epipolar sweep (row-sorted left/right feature
vectors `L`, `R`, offset `off`, current maximum descriptor distance
`maxDist`), every accepted pair `(i, j)` satisfies
`L[i].row = R[j].row + off`, `L[i].col − R[j].col ≥ 0`, and a descriptor
distance strictly below `maxDist`. -/
theorem accepted_pairs_satisfy_constraints (mL mR : IntensityFeatureMatcher)
    (off : ℤ) (maxDist : ℚ) (p : ℕ × ℕ)
    (hp : p ∈ matchLoop mL.sort_feature_vector.feature_vector
      mR.sort_feature_vector.feature_vector off maxDist
      (mL.sort_feature_vector.feature_vector.length + 1) 0 0 []) :
    p.1 < mL.sort_feature_vector.feature_vector.length ∧
    p.2 < mR.sort_feature_vector.feature_vector.length ∧
    (mL.sort_feature_vector.feature_vector.getD p.1 default).row
      = (mR.sort_feature_vector.feature_vector.getD p.2 default).row + off ∧
    0 ≤ (mL.sort_feature_vector.feature_vector.getD p.1 default).col
      - (mR.sort_feature_vector.feature_vector.getD p.2 default).col ∧
    ((hammingNorm (mL.sort_feature_vector.feature_vector.getD p.1 default).descriptor
      (mR.sort_feature_vector.feature_vector.getD p.2 default).descriptor : ℚ)) < maxDist := by
  obtain ⟨ext, hext, hprops, _⟩ := matchLoop_spec mL.sort_feature_vector.feature_vector
    mR.sort_feature_vector.feature_vector off maxDist
    (mL.sort_feature_vector.feature_vector.length + 1) 0 0 []
  rw [hext, List.nil_append] at hp
  exact (hprops p hp).2.2

theorem exampleMatcherLeft_sorted_eval :
    exampleMatcherLeft.sort_feature_vector.feature_vector
      = [⟨⟨10, 5⟩, [true], 5, 10, 0⟩] := by
  simp [exampleMatcherLeft, IntensityFeatureMatcher.set_fatures,
    IntensityFeatureMatcher.configure, IntensityFeatureMatcher.sort_feature_vector,
    IntensityFeature.new, truncQ, set2, List.replicate]

theorem exampleMatcherRight_sorted_eval :
    exampleMatcherRight.sort_feature_vector.feature_vector
      = [⟨⟨4, 5⟩, [true], 5, 4, 0⟩] := by
  simp [exampleMatcherRight, IntensityFeatureMatcher.set_fatures,
    IntensityFeatureMatcher.configure, IntensityFeatureMatcher.sort_feature_vector,
    IntensityFeature.new, truncQ, set2, List.replicate]

theorem matchLoop_example_eval :
    matchLoop exampleMatcherLeft.sort_feature_vector.feature_vector
      exampleMatcherRight.sort_feature_vector.feature_vector 0 ((0.1 : ℚ) * 256)
      (exampleMatcherLeft.sort_feature_vector.feature_vector.length + 1) 0 0 [] = [(0, 0)] := by
  have h : hammingNorm [true] [true] = 0 := rfl
  rw [exampleMatcherLeft_sorted_eval, exampleMatcherRight_sorted_eval]
  simp [matchLoop, advanceL, advanceR, searchBest, h]
  norm_num

/-- C3 witness: the accepted pair `(0, 0)` of the example matchers satisfies
the row, column-delta and descriptor-distance constraints. -/
theorem accepted_pairs_satisfy_constraints_witness :
    ((0, 0) : ℕ × ℕ) ∈ matchLoop exampleMatcherLeft.sort_feature_vector.feature_vector
      exampleMatcherRight.sort_feature_vector.feature_vector 0 ((0.1 : ℚ) * 256)
      (exampleMatcherLeft.sort_feature_vector.feature_vector.length + 1) 0 0 [] ∧
    ((0, 0) : ℕ × ℕ).1 < exampleMatcherLeft.sort_feature_vector.feature_vector.length ∧
    ((0, 0) : ℕ × ℕ).2 < exampleMatcherRight.sort_feature_vector.feature_vector.length ∧
    (exampleMatcherLeft.sort_feature_vector.feature_vector.getD 0 default).row
      = (exampleMatcherRight.sort_feature_vector.feature_vector.getD 0 default).row + 0 ∧
    0 ≤ (exampleMatcherLeft.sort_feature_vector.feature_vector.getD 0 default).col
      - (exampleMatcherRight.sort_feature_vector.feature_vector.getD 0 default).col ∧
    ((hammingNorm
      (exampleMatcherLeft.sort_feature_vector.feature_vector.getD 0 default).descriptor
      (exampleMatcherRight.sort_feature_vector.feature_vector.getD 0 default).descriptor : ℚ))
      < (0.1 : ℚ) * 256 := by
  have hmem : ((0, 0) : ℕ × ℕ) ∈ matchLoop exampleMatcherLeft.sort_feature_vector.feature_vector
      exampleMatcherRight.sort_feature_vector.feature_vector 0 ((0.1 : ℚ) * 256)
      (exampleMatcherLeft.sort_feature_vector.feature_vector.length + 1) 0 0 [] := by
    rw [matchLoop_example_eval]
    exact List.mem_singleton.mpr rfl
  exact ⟨hmem, accepted_pairs_satisfy_constraints exampleMatcherLeft exampleMatcherRight
    0 ((0.1 : ℚ) * 256) (0, 0) hmem⟩

/-! ### Claim C6: one-to-one pairing and output order -/

/-- C6: within a single `get_epipolar_matches` call, the accepted left indices
and the accepted right indices are each strictly increasing in acceptance
order (so no right feature is claimed by two left features), the two matched
`BTreeSet`s list them in exactly acceptance order and have equal cardinality,
and the two returned keypoint lists are the position-by-position images of
the accepted pairs — the k-th returned left keypoint is matched to the k-th
returned right keypoint. -/
theorem get_epipolar_matches_pairing (mL mR : IntensityFeatureMatcher)
    (off : ℤ) (maxDist : ℚ) :
    (matchLoop mL.sort_feature_vector.feature_vector mR.sort_feature_vector.feature_vector
        off maxDist (mL.sort_feature_vector.feature_vector.length + 1) 0 0 []).Pairwise
      (fun p q => p.1 < q.1 ∧ p.2 < q.2) ∧
    btreeOfList ((matchLoop mL.sort_feature_vector.feature_vector
        mR.sort_feature_vector.feature_vector off maxDist
        (mL.sort_feature_vector.feature_vector.length + 1) 0 0 []).map Prod.fst)
      = (matchLoop mL.sort_feature_vector.feature_vector
        mR.sort_feature_vector.feature_vector off maxDist
        (mL.sort_feature_vector.feature_vector.length + 1) 0 0 []).map Prod.fst ∧
    btreeOfList ((matchLoop mL.sort_feature_vector.feature_vector
        mR.sort_feature_vector.feature_vector off maxDist
        (mL.sort_feature_vector.feature_vector.length + 1) 0 0 []).map Prod.snd)
      = (matchLoop mL.sort_feature_vector.feature_vector
        mR.sort_feature_vector.feature_vector off maxDist
        (mL.sort_feature_vector.feature_vector.length + 1) 0 0 []).map Prod.snd ∧
    (getEpipolarMatches mL mR off maxDist).2.1
      = (matchLoop mL.sort_feature_vector.feature_vector
        mR.sort_feature_vector.feature_vector off maxDist
        (mL.sort_feature_vector.feature_vector.length + 1) 0 0 []).map
        (fun p => (mL.sort_feature_vector.feature_vector.getD p.1 default).keypoint) ∧
    (getEpipolarMatches mL mR off maxDist).2.2
      = (matchLoop mL.sort_feature_vector.feature_vector
        mR.sort_feature_vector.feature_vector off maxDist
        (mL.sort_feature_vector.feature_vector.length + 1) 0 0 []).map
        (fun p => (mR.sort_feature_vector.feature_vector.getD p.2 default).keypoint) ∧
    (getEpipolarMatches mL mR off maxDist).2.1.length
      = (getEpipolarMatches mL mR off maxDist).2.2.length := by
  obtain ⟨ext, hext, hprops, hpw⟩ := matchLoop_spec mL.sort_feature_vector.feature_vector
    mR.sort_feature_vector.feature_vector off maxDist
    (mL.sort_feature_vector.feature_vector.length + 1) 0 0 []
  rw [List.nil_append] at hext
  have hfst : (ext.map Prod.fst).Pairwise (· < ·) :=
    hpw.map Prod.fst (fun a b hab => hab.1)
  have hsnd : (ext.map Prod.snd).Pairwise (· < ·) :=
    hpw.map Prod.snd (fun a b hab => hab.2)
  have hbf := btreeOfList_of_pairwise _ hfst
  have hbs := btreeOfList_of_pairwise _ hsnd
  refine ⟨hext ▸ hpw, hext ▸ hbf, hext ▸ hbs, ?_, ?_, ?_⟩
  · simp only [getEpipolarMatches, hext, hbf, List.map_map]
    rfl
  · simp only [getEpipolarMatches, hext, hbs, List.map_map]
    rfl
  · simp only [getEpipolarMatches, hext, hbf, hbs, List.length_map]

/-! ### Helper lemmas about the `compute_frame_point` loop -/

theorem computeLoop_snd (maxd : ℚ) :
    ∀ (offs : List ℤ)
      (st : (IntensityFeatureMatcher × IntensityFeatureMatcher) × List (Keypoint × Keypoint)),
    (offs.foldl (fun st off => ((getEpipolarMatches st.1.1 st.1.2 off maxd).1, st.2)) st).2
      = st.2
  | [], _ => rfl
  | o :: os, st => by
    rw [List.foldl_cons]
    exact computeLoop_snd maxd os _

theorem survivingLoop_mem (maxd mind : ℚ) :
    ∀ (offs : List ℤ)
      (st : (IntensityFeatureMatcher × IntensityFeatureMatcher) × List (Keypoint × Keypoint))
      (p : Keypoint × Keypoint),
    p ∈ (offs.foldl (fun st off =>
        ((getEpipolarMatches st.1.1 st.1.2 off maxd).1,
          st.2 ++ ((getEpipolarMatches st.1.1 st.1.2 off maxd).2.1.zip
            (getEpipolarMatches st.1.1 st.1.2 off maxd).2.2).filter
            (fun q => !decide (q.1.x - q.2.x < mind)))) st).2 →
    p ∈ st.2 ∨ ¬ p.1.x - p.2.x < mind
  | [], _, _, h => Or.inl h
  | o :: os, st, p, h => by
    rw [List.foldl_cons] at h
    rcases survivingLoop_mem maxd mind os _ p h with hin | hok
    · rcases List.mem_append.mp hin with hl | hr
      · exact Or.inl hl
      · refine Or.inr ?_
        have := (List.mem_filter.mp hr).2
        simpa using this
    · exact Or.inr hok

/-! ### Claim C1: compute_frame_point filtering and (non-)delivery -/

theorem survivingPairs_exampleGenerator :
    survivingPairs exampleGenerator = [(⟨10, 5⟩, ⟨4, 5⟩)] := by
  have h : hammingNorm [true] [true] = 0 := rfl
  simp [exampleGenerator, exampleMatcherLeft, exampleMatcherRight, survivingPairs,
    epipolarSearchOffsets, getEpipolarMatches, IntensityFeatureMatcher.set_fatures,
    IntensityFeatureMatcher.configure, IntensityFeatureMatcher.sort_feature_vector,
    IntensityFeatureMatcher.prune, pruneAux, matchLoop, advanceL, advanceR, searchBest, h,
    btreeOfList, btreeInsert, IntensityFeature.new, truncQ, set2, List.replicate]
  norm_num [btreeInsert, List.filter]

theorem compute_frame_point_exampleGenerator :
    (compute_frame_point exampleGenerator).2 = [] := by
  have h : hammingNorm [true] [true] = 0 := rfl
  simp [exampleGenerator, exampleMatcherLeft, exampleMatcherRight, compute_frame_point,
    epipolarSearchOffsets, getEpipolarMatches, IntensityFeatureMatcher.set_fatures,
    IntensityFeatureMatcher.configure, IntensityFeatureMatcher.sort_feature_vector,
    IntensityFeatureMatcher.prune, pruneAux, matchLoop, advanceL, advanceR, searchBest, h,
    btreeOfList, btreeInsert, IntensityFeature.new, truncQ, set2, List.replicate]

/-- C1 counterexample: a frame state with one matched pair of disparity
`6 ≥ minimum_disparity_pixels = 1` — the pair survives the disparity check,
yet `compute_frame_point` delivers nothing: the loop body after the check is
empty and `create_framepoint` is an unimplemented stub that is never called,
so "every surviving pair becomes a FramePoint candidate delivered to the
caller" fails. -/
theorem compute_frame_point_delivers_no_surviving_pair :
    ¬ ∀ p ∈ survivingPairs exampleGenerator, p ∈ (compute_frame_point exampleGenerator).2 := by
  intro hall
  have hmem : ((⟨10, 5⟩, ⟨4, 5⟩) : Keypoint × Keypoint) ∈ survivingPairs exampleGenerator := by
    rw [survivingPairs_exampleGenerator]
    exact List.mem_singleton.mpr rfl
  have := hall _ hmem
  rw [compute_frame_point_exampleGenerator] at this
  exact (List.not_mem_nil _) this

/-- C1 (amended): `compute_frame_point` iterates the configured epipolar
offsets in order calling `get_epipolar_matches` at each, and discards exactly
the pairs whose disparity `left.x − right.x` is strictly below
`minimum_disparity_pixels` (every surviving pair has disparity at least the
minimum) — but no surviving pair becomes a FramePoint: the delivered list is
always empty, 3D point construction being an unimplemented stub. -/
theorem compute_frame_point_characterization (g : StereoFramePointGenerator) :
    (compute_frame_point g).2 = [] ∧
    ∀ p ∈ survivingPairs g, ¬ p.1.x - p.2.x < g.minimum_disparity_pixels := by
  constructor
  · simp only [compute_frame_point]
    exact computeLoop_snd _ _ _
  · intro p hp
    simp only [survivingPairs] at hp
    rcases survivingLoop_mem g.current_maximum_descriptor_distance_triangulation
      g.minimum_disparity_pixels g.epipolar_search_distance _ p hp with hin | hok
    · exact absurd hin (List.not_mem_nil p)
    · exact hok

/-- C1 witness: the amended theorem applied to the example generator at its
surviving pair. -/
theorem compute_frame_point_characterization_witness :
    ((⟨10, 5⟩, ⟨4, 5⟩) : Keypoint × Keypoint) ∈ survivingPairs exampleGenerator ∧
    ¬ ((⟨10, 5⟩ : Keypoint).x - (⟨4, 5⟩ : Keypoint).x
        < exampleGenerator.minimum_disparity_pixels) := by
  have hmem : ((⟨10, 5⟩, ⟨4, 5⟩) : Keypoint × Keypoint) ∈ survivingPairs exampleGenerator := by
    rw [survivingPairs_exampleGenerator]
    exact List.mem_singleton.mpr rfl
  exact ⟨hmem, (compute_frame_point_characterization exampleGenerator).2 _ hmem⟩

/-! ### Claim C7: prune keeps exactly the unmatched entries, in order -/

/-- C7: for a matched-index set `M` of pre-prune indices (duplicate-free, all
within the flat list), `prune` leaves a flat list of length `len − |M|` that
is an order-preserving sublist of the pre-prune list containing exactly the
entries whose pre-prune index is not in `M`. -/
theorem prune_removes_exactly_matched (m : IntensityFeatureMatcher) (M : List ℕ)
    (hnd : M.Nodup) (hlt : ∀ i ∈ M, i < m.feature_vector.length) :
    (m.prune M).feature_vector.length = m.feature_vector.length - M.length ∧
    (m.prune M).feature_vector.Sublist m.feature_vector ∧
    (m.prune M).feature_vector
      = ((m.feature_vector.enum.filter (fun p => !decide (p.1 ∈ M))).map Prod.snd) := by
  refine ⟨?_, pruneAux_sublist M m.feature_vector 0, ?_⟩
  · have h := pruneAux_length M m.feature_vector 0 hnd
      (fun i hi => ⟨Nat.zero_le i, by simpa using hlt i hi⟩)
    simp only [IntensityFeatureMatcher.prune]
    omega
  · simpa using pruneAux_eq_filter M m.feature_vector 0

/-- C7 witness: pruning the matched-index set `{1}` out of the three-feature
list. -/
theorem prune_removes_exactly_matched_witness :
    ([1] : List ℕ).Nodup ∧ (∀ i ∈ [1], i < pruneExampleMatcher.feature_vector.length) ∧
    ((pruneExampleMatcher.prune [1]).feature_vector.length
        = pruneExampleMatcher.feature_vector.length - [1].length ∧
      (pruneExampleMatcher.prune [1]).feature_vector.Sublist
        pruneExampleMatcher.feature_vector ∧
      (pruneExampleMatcher.prune [1]).feature_vector
        = ((pruneExampleMatcher.feature_vector.enum.filter
            (fun p => !decide (p.1 ∈ [1]))).map Prod.snd)) := by
  exact ⟨by decide, by decide,
    prune_removes_exactly_matched pruneExampleMatcher [1] (by decide) (by decide)⟩

/-! ### Helper lemmas about the feature lattice -/

theorem latShape_configure (rows cols : ℕ) :
    latShape (IntensityFeatureMatcher.configure rows cols).feature_lattice rows cols := by
  constructor
  · simp [IntensityFeatureMatcher.configure]
  · intro rowL hrow
    simp only [IntensityFeatureMatcher.configure] at hrow
    rw [List.eq_of_mem_replicate hrow]
    simp

theorem latShape_clearLattice (lat : List (List (Option IntensityFeature))) (rows cols : ℕ)
    (h : latShape lat rows cols) : latShape (clearLattice lat) rows cols := by
  constructor
  · simp [clearLattice, h.1]
  · intro rowL hrow
    simp only [clearLattice, List.mem_map] at hrow
    obtain ⟨r0, hr0, hmap⟩ := hrow
    rw [← hmap, List.length_map]
    exact h.2 r0 hr0

theorem get2_clearLattice (lat : List (List (Option IntensityFeature))) (r c : ℤ) :
    get2 (clearLattice lat) r c = none := by
  simp only [get2, clearLattice]
  by_cases hrc : 0 ≤ r ∧ 0 ≤ c
  · rw [if_pos hrc]
    simp only [List.getD_eq_getElem?_getD, List.getElem?_map]
    cases hrow : lat[r.toNat]? with
    | none => simp
    | some rowL =>
      simp only [Option.map_some', Option.getD_some, List.getElem?_map]
      cases hc : rowL[c.toNat]? with
      | none => simp
      | some x => simp
  · rw [if_neg hrc]

theorem latShape_set2 (lat : List (List (Option IntensityFeature))) (rows cols : ℕ)
    (h : latShape lat rows cols) (r c : ℤ) (v : Option IntensityFeature) :
    latShape (set2 lat r c v) rows cols := by
  simp only [set2]
  by_cases hrc : 0 ≤ r ∧ 0 ≤ c
  · rw [if_pos hrc]
    by_cases hlt : r.toNat < lat.length
    · constructor
      · simp [h.1]
      · intro rowL hrow
        rcases List.mem_or_eq_of_mem_set hrow with hmem | heq
        · exact h.2 rowL hmem
        · rw [heq, List.length_set]
          have hget : lat.getD r.toNat [] = lat[r.toNat] := by
            rw [List.getD_eq_getElem?_getD, List.getElem?_eq_getElem hlt]
            rfl
          rw [hget]
          exact h.2 _ (List.getElem_mem hlt)
    · rw [List.set_eq_of_length_le (by omega)]
      exact h
  · rw [if_neg hrc]
    exact h

/-- Reading a written lattice: the written cell holds the new value, every
other cell is untouched (given the write is in bounds of the shape). -/
theorem get2_set2 (lat : List (List (Option IntensityFeature))) (rows cols : ℕ)
    (h : latShape lat rows cols) (r0 c0 : ℤ) (hr0 : 0 ≤ r0) (hc0 : 0 ≤ c0)
    (hrn : r0.toNat < rows) (hcn : c0.toNat < cols) (v : Option IntensityFeature) (r c : ℤ) :
    get2 (set2 lat r0 c0 v) r c = if r = r0 ∧ c = c0 then v else get2 lat r c := by
  have hlen : r0.toNat < lat.length := by rw [h.1]; exact hrn
  have hget : lat.getD r0.toNat [] = lat[r0.toNat] := by
    rw [List.getD_eq_getElem?_getD, List.getElem?_eq_getElem hlen]
    rfl
  have hrowlen : c0.toNat < (lat.getD r0.toNat []).length := by
    rw [hget, h.2 _ (List.getElem_mem hlen)]
    exact hcn
  simp only [set2, if_pos (And.intro hr0 hc0)]
  by_cases heq : r = r0 ∧ c = c0
  · rw [if_pos heq]
    obtain ⟨her, hec⟩ := heq
    subst her
    subst hec
    simp only [get2, if_pos (And.intro hr0 hc0)]
    rw [List.getD_eq_getElem?_getD] at hrowlen
    simp only [List.getD_eq_getElem?_getD, List.getElem?_set_self hlen, Option.getD_some]
    rw [List.getElem?_set_self hrowlen, Option.getD_some]
  · rw [if_neg heq]
    by_cases hrc : 0 ≤ r ∧ 0 ≤ c
    · simp only [get2, if_pos hrc]
      by_cases hrr : r.toNat = r0.toNat
      · have hreq : r = r0 := by
          rw [← Int.toNat_of_nonneg hrc.1, ← Int.toNat_of_nonneg hr0, hrr]
        have hcne : c ≠ c0 := fun hcc => heq ⟨hreq, hcc⟩
        have hcnn : c.toNat ≠ c0.toNat := by
          intro hcc
          apply hcne
          rw [← Int.toNat_of_nonneg hrc.2, ← Int.toNat_of_nonneg hc0, hcc]
        simp only [List.getD_eq_getElem?_getD, hrr, List.getElem?_set_self hlen,
          Option.getD_some]
        rw [List.getElem?_set_ne (Ne.symm hcnn)]
      · simp only [List.getD_eq_getElem?_getD, List.getElem?_set_ne (Ne.symm hrr)]
    · simp only [get2, if_neg hrc]

/-- In-bounds condition for a feature's truncated cell. -/
def featureInBounds (rows cols : ℕ) (f : IntensityFeature) : Prop :=
  0 ≤ f.row ∧ f.row < (rows : ℤ) ∧ 0 ≤ f.col ∧ f.col < (cols : ℤ)

theorem featureInBounds_toNat {rows cols : ℕ} {f : IntensityFeature}
    (h : featureInBounds rows cols f) : f.row.toNat < rows ∧ f.col.toNat < cols := by
  obtain ⟨h1, h2, h3, h4⟩ := h
  omega

theorem latShape_writeFold (rows cols : ℕ) :
    ∀ (fs : List IntensityFeature) (lat : List (List (Option IntensityFeature))),
    latShape lat rows cols → latShape (writeFold fs lat) rows cols
  | [], _, h => h
  | f :: fs, lat, h =>
    latShape_writeFold rows cols fs _ (latShape_set2 lat rows cols h f.row f.col (some f))

theorem writeFold_get2_of_no_write (rows cols : ℕ) (r c : ℤ) :
    ∀ (fs : List IntensityFeature) (lat : List (List (Option IntensityFeature))),
    latShape lat rows cols → (∀ f ∈ fs, featureInBounds rows cols f) →
    (∀ f ∈ fs, ¬(f.row = r ∧ f.col = c)) →
    get2 (writeFold fs lat) r c = get2 lat r c
  | [], _, _, _, _ => rfl
  | f0 :: fs, lat, h, hin, hno => by
    have hf0 := hin f0 (List.mem_cons_self f0 fs)
    have htn := featureInBounds_toNat hf0
    have ih := writeFold_get2_of_no_write rows cols r c fs
      (set2 lat f0.row f0.col (some f0))
      (latShape_set2 lat rows cols h f0.row f0.col (some f0))
      (fun f hf => hin f (List.mem_cons_of_mem f0 hf))
      (fun f hf => hno f (List.mem_cons_of_mem f0 hf))
    rw [writeFold, List.foldl_cons, ← writeFold, ih,
      get2_set2 lat rows cols h f0.row f0.col hf0.1 hf0.2.2.1 htn.1 htn.2 (some f0) r c]
    rw [if_neg]
    intro hcon
    exact hno f0 (List.mem_cons_self f0 fs) ⟨hcon.1.symm, hcon.2.symm⟩

theorem writeFold_occupant_mem (rows cols : ℕ) :
    ∀ (fs : List IntensityFeature) (lat : List (List (Option IntensityFeature))),
    latShape lat rows cols → (∀ f ∈ fs, featureInBounds rows cols f) →
    ∀ (r c : ℤ) (f : IntensityFeature),
    get2 (writeFold fs lat) r c = some f → f ∈ fs ∨ get2 lat r c = some f
  | [], _, _, _, _, _, _, hget => Or.inr hget
  | f0 :: fs, lat, h, hin, r, c, f, hget => by
    have hf0 := hin f0 (List.mem_cons_self f0 fs)
    have htn := featureInBounds_toNat hf0
    rw [writeFold, List.foldl_cons, ← writeFold] at hget
    rcases writeFold_occupant_mem rows cols fs (set2 lat f0.row f0.col (some f0))
      (latShape_set2 lat rows cols h f0.row f0.col (some f0))
      (fun g hg => hin g (List.mem_cons_of_mem f0 hg)) r c f hget with hmem | hcell
    · exact Or.inl (List.mem_cons_of_mem f0 hmem)
    · rw [get2_set2 lat rows cols h f0.row f0.col hf0.1 hf0.2.2.1 htn.1 htn.2 (some f0) r c]
        at hcell
      by_cases hrc : r = f0.row ∧ c = f0.col
      · rw [if_pos hrc] at hcell
        cases hcell
        exact Or.inl (List.mem_cons_self f0 fs)
      · rw [if_neg hrc] at hcell
        exact Or.inr hcell

theorem writeFold_last_write (rows cols : ℕ) :
    ∀ (fs : List IntensityFeature) (lat : List (List (Option IntensityFeature))),
    latShape lat rows cols → (∀ f ∈ fs, featureInBounds rows cols f) →
    ∀ (i : ℕ), i < fs.length →
    (∀ j, i < j → j < fs.length →
      ¬((fs.getD j default).row = (fs.getD i default).row ∧
        (fs.getD j default).col = (fs.getD i default).col)) →
    get2 (writeFold fs lat) (fs.getD i default).row (fs.getD i default).col
      = some (fs.getD i default)
  | [], _, _, _, i, hi, _ => by simp at hi
  | f0 :: fs, lat, h, hin, 0, hi, hlater => by
    have hf0 := hin f0 (List.mem_cons_self f0 fs)
    have htn := featureInBounds_toNat hf0
    simp only [List.getD_cons_zero] at hlater ⊢
    rw [writeFold, List.foldl_cons, ← writeFold]
    have hnone : ∀ f ∈ fs, ¬(f.row = f0.row ∧ f.col = f0.col) := by
      intro f hf hcon
      obtain ⟨n, hn, hfn⟩ := List.mem_iff_getElem.mp hf
      have hgd : (f0 :: fs).getD (n + 1) default = f := by
        rw [List.getD_cons_succ, List.getD_eq_getElem?_getD, List.getElem?_eq_getElem hn,
          Option.getD_some, hfn]
      apply hlater (n + 1) (by omega) (by simp only [List.length_cons]; omega)
      rw [hgd]
      exact hcon
    rw [writeFold_get2_of_no_write rows cols f0.row f0.col fs
      (set2 lat f0.row f0.col (some f0))
      (latShape_set2 lat rows cols h f0.row f0.col (some f0))
      (fun f hf => hin f (List.mem_cons_of_mem f0 hf)) hnone]
    rw [get2_set2 lat rows cols h f0.row f0.col hf0.1 hf0.2.2.1 htn.1 htn.2 (some f0)]
    rw [if_pos ⟨rfl, rfl⟩]
  | f0 :: fs, lat, h, hin, i + 1, hi, hlater => by
    simp only [List.getD_cons_succ] at hlater ⊢
    rw [writeFold, List.foldl_cons, ← writeFold]
    apply writeFold_last_write rows cols fs (set2 lat f0.row f0.col (some f0))
      (latShape_set2 lat rows cols h f0.row f0.col (some f0))
      (fun f hf => hin f (List.mem_cons_of_mem f0 hf)) i
      (by simp only [List.length_cons] at hi; omega)
    intro j hj1 hj2
    have := hlater (j + 1) (by omega) (by simp only [List.length_cons]; omega)
    simpa using this

/-- Decomposition of the `set_fatures` loop: the flat vector collects the
built features in order and the lattice receives the corresponding writes in
order. -/
theorem set_fatures_foldl_decomp :
    ∀ (ps : List (ℕ × (Keypoint × Descriptor))) (m0 : IntensityFeatureMatcher),
    ps.foldl
      (fun mm p =>
        let f := IntensityFeature.new p.2.1 p.2.2 p.1
        { mm with
          feature_vector := mm.feature_vector ++ [f],
          feature_lattice := set2 mm.feature_lattice f.row f.col (some f) })
      m0
      = { number_of_rows := m0.number_of_rows, number_of_cols := m0.number_of_cols,
          feature_vector := m0.feature_vector
            ++ ps.map (fun p => IntensityFeature.new p.2.1 p.2.2 p.1),
          feature_lattice :=
            writeFold (ps.map (fun p => IntensityFeature.new p.2.1 p.2.2 p.1))
              m0.feature_lattice }
  | [], m0 => by
    cases m0
    simp [writeFold]
  | p :: ps, m0 => by
    rw [List.foldl_cons, set_fatures_foldl_decomp ps]
    simp [writeFold]

/-- Characterization of a successful `set_fatures`: the result's vector is
the built feature list and its lattice is the cleared lattice plus the writes
in detection order. -/
theorem set_fatures_ok_decomp (m : IntensityFeatureMatcher)
    (keypoints : List Keypoint) (descriptors : List Descriptor)
    (hlen : keypoints.length = descriptors.length) :
    m.set_fatures keypoints descriptors
      = ({ number_of_rows := m.number_of_rows, number_of_cols := m.number_of_cols,
           feature_vector := builtFeatures keypoints descriptors,
           feature_lattice :=
             writeFold (builtFeatures keypoints descriptors)
               (clearLattice m.feature_lattice) },
         Except.ok ()) := by
  simp only [IntensityFeatureMatcher.set_fatures, if_neg (by omega : ¬keypoints.length ≠ descriptors.length)]
  rw [set_fatures_foldl_decomp]
  simp [builtFeatures, clearLattice]

/-! ### Claim C5: lattice contents after set_fatures -/

theorem collidingMatcher_eval :
    collidingMatcher
      = { number_of_rows := 2, number_of_cols := 2,
          feature_lattice := [[some ⟨⟨0, 0⟩, [false], 0, 0, 1⟩, none], [none, none]],
          feature_vector := [⟨⟨0, 0⟩, [true], 0, 0, 0⟩, ⟨⟨0, 0⟩, [false], 0, 0, 1⟩] } := by
  simp [collidingMatcher, IntensityFeatureMatcher.set_fatures,
    IntensityFeatureMatcher.configure, IntensityFeature.new, truncQ, set2, List.replicate,
    List.enum, List.enumFrom]

/-- C5 counterexample: two keypoints truncating to the same cell `(0, 0)`.
The flat list keeps both entries (`N = 2`), but the claim that every entry in
the flat list is the occupant of its own `(row, col)` lattice cell fails: the
cell holds only the later entry, so the earlier entry is in the flat list yet
unreachable from the lattice. -/
theorem set_fatures_entry_not_cell_occupant :
    collidingMatcher.feature_vector.length = 2 ∧
    ¬ ∀ i, i < collidingMatcher.feature_vector.length →
        get2 collidingMatcher.feature_lattice
          (collidingMatcher.feature_vector.getD i default).row
          (collidingMatcher.feature_vector.getD i default).col
          = some (collidingMatcher.feature_vector.getD i default) := by
  rw [collidingMatcher_eval]
  refine ⟨rfl, ?_⟩
  intro hall
  have h0 := hall 0 (by norm_num)
  simp [get2] at h0

/-- C5 (amended): for `N` keypoints whose truncated cells lie inside the
configured bounds, after a successful `set_fatures` the flat list has exactly
`N` entries and the lattice is the last-write-wins index of it: every
occupied cell's occupant is an entry of the flat list, and every entry that
is not followed (in detection order) by another entry with the same truncated
cell is the occupant of its own cell — an entry shadowed by a later same-cell
entry remains in the flat list but is not the occupant. -/
theorem set_fatures_lattice_characterization
    (rows cols : ℕ) (keypoints : List Keypoint) (descriptors : List Descriptor)
    (m : IntensityFeatureMatcher)
    (hlen : keypoints.length = descriptors.length)
    (hin : ∀ f ∈ builtFeatures keypoints descriptors, featureInBounds rows cols f)
    (hm : m = ((IntensityFeatureMatcher.configure rows cols).set_fatures
      keypoints descriptors).1) :
    m.feature_vector.length = keypoints.length ∧
    (∀ (r c : ℤ) (f : IntensityFeature),
      get2 m.feature_lattice r c = some f → f ∈ m.feature_vector) ∧
    (∀ i, i < m.feature_vector.length →
      (∀ j, i < j → j < m.feature_vector.length →
        ¬((m.feature_vector.getD j default).row = (m.feature_vector.getD i default).row ∧
          (m.feature_vector.getD j default).col = (m.feature_vector.getD i default).col)) →
      get2 m.feature_lattice (m.feature_vector.getD i default).row
        (m.feature_vector.getD i default).col
        = some (m.feature_vector.getD i default)) := by
  subst hm
  rw [set_fatures_ok_decomp _ _ _ hlen]
  have hshape : latShape (clearLattice
      (IntensityFeatureMatcher.configure rows cols).feature_lattice) rows cols :=
    latShape_clearLattice _ rows cols (latShape_configure rows cols)
  refine ⟨?_, ?_, ?_⟩
  · simp [builtFeatures, hlen]
  · intro r c f hget
    rcases writeFold_occupant_mem rows cols (builtFeatures keypoints descriptors) _
      hshape hin r c f hget with hmem | hnone
    · exact hmem
    · rw [get2_clearLattice] at hnone
      cases hnone
  · intro i hi hlater
    exact writeFold_last_write rows cols (builtFeatures keypoints descriptors) _
      hshape hin i hi hlater

theorem builtFeatures_distinct_eval :
    builtFeatures [(⟨0, 0⟩ : Keypoint), ⟨1, 1⟩] [[true], [false]]
      = [⟨⟨0, 0⟩, [true], 0, 0, 0⟩, ⟨⟨1, 1⟩, [false], 1, 1, 1⟩] := by
  simp [builtFeatures, IntensityFeature.new, truncQ, List.enum, List.enumFrom]

/-- C5 witness: two keypoints in distinct cells of a 2×2 lattice; the amended
characterization applied to them. -/
theorem set_fatures_lattice_characterization_witness :
    ([(⟨0, 0⟩ : Keypoint), ⟨1, 1⟩].length = ([[true], [false]] : List Descriptor).length) ∧
    (∀ f ∈ builtFeatures [(⟨0, 0⟩ : Keypoint), ⟨1, 1⟩] [[true], [false]],
      featureInBounds 2 2 f) ∧
    (((IntensityFeatureMatcher.configure 2 2).set_fatures [⟨0, 0⟩, ⟨1, 1⟩]
        [[true], [false]]).1.feature_vector.length
      = [(⟨0, 0⟩ : Keypoint), ⟨1, 1⟩].length) := by
  have hin : ∀ f ∈ builtFeatures [(⟨0, 0⟩ : Keypoint), ⟨1, 1⟩] [[true], [false]],
      featureInBounds 2 2 f := by
    rw [builtFeatures_distinct_eval]
    intro f hf
    rcases List.mem_cons.mp hf with h | h
    · subst h
      refine ⟨by norm_num, by norm_num, by norm_num, by norm_num⟩
    · rcases List.mem_cons.mp h with h2 | h2
      · subst h2
        refine ⟨by norm_num, by norm_num, by norm_num, by norm_num⟩
      · cases h2
  exact ⟨rfl, hin,
    (set_fatures_lattice_characterization 2 2 [⟨0, 0⟩, ⟨1, 1⟩] [[true], [false]] _
      rfl hin rfl).1⟩

/-! ### Claim C2: stored disparity of a constructed StereoFramepoint -/

/-- C2 (code bug evaluation): for the left keypoint `(x, y) = (10, 5)` and
right keypoint `(4, 20)`, `StereoFramepoint::new` stores
`disparity_pixels = left.x − right.y = −10`, while `left.x − right.x = 6`;
the stored value neither equals `left.x − right.x` nor is positive. -/
theorem stereo_framepoint_disparity_bug :
    (StereoFramepoint.new ⟨10, 5⟩ ⟨4, 20⟩ [true] [false]).disparity_pixels = -10 ∧
    ((⟨10, 5⟩ : Keypoint).x - (⟨4, 20⟩ : Keypoint).x = 6) ∧
    (StereoFramepoint.new ⟨10, 5⟩ ⟨4, 20⟩ [true] [false]).disparity_pixels
      ≠ (⟨10, 5⟩ : Keypoint).x - (⟨4, 20⟩ : Keypoint).x ∧
    ¬ 0 < (StereoFramepoint.new ⟨10, 5⟩ ⟨4, 20⟩ [true] [false]).disparity_pixels := by
  refine ⟨?_, ?_, ?_, ?_⟩ <;> norm_num [StereoFramepoint.new]

end RSLAM

